import Mathlib

/-!
Shallow embedding of the Hansel evidence matrix from src/hansel/hansel.py.

Modelling conventions:
* Python floats are modelled as rationals, so all arithmetic is exact.
* The numpy-backed 4-D array is modelled as a total function on natural
  coordinates together with explicit shape fields; the shape fields record the
  allocated extent, which whole-matrix sums range over.
* Python dictionaries keyed by symbol indices are modelled as association
  lists in insertion order; for this code the insertion order is always
  ascending index order.
* Operations that can raise a Python exception (KeyError on a missing
  dictionary key, ZeroDivisionError on a zero denominator) return an Option,
  with none marking the raise.
* HanselSymbol values behave as plain ints, so the index-level operations take
  plain natural-number symbol indices, exactly as the Python code indexes the
  array with them.
-/

/-- State of a Hansel object: the backing array plus the metadata attributes
set by Hansel.__new__. -/
structure Hansel where
  data : ℕ → ℕ → ℕ → ℕ → ℚ
  n_syms : ℕ
  n_pos : ℕ
  symbols : List String
  unsymbols : List String
  L : ℕ
  is_weighted : Bool
  n_slices : ℕ
  n_crumbs : ℕ

/-- Hansel.__new__: attach metadata to a backing array. The window size
argument L defaults to 0 in the code (the class docstring advertises a default
of 1, but the signature reads L=0), counters start at 0 and is_weighted starts
False. -/
def hansel_new (input_arr : ℕ → ℕ → ℕ → ℕ → ℚ) (shape_syms shape_pos : ℕ)
    (symbols unsymbols : List String) (L : ℕ) : Hansel :=
  { data := input_arr
    n_syms := shape_syms
    n_pos := shape_pos
    symbols := symbols
    unsymbols := unsymbols
    L := L
    is_weighted := false
    n_slices := 0
    n_crumbs := 0 }

/-- Hansel.init_matrix: allocate a zero-filled array of shape
(n_symbols, n_symbols, n_positions+2, n_positions+2) and wrap it with the
constructor, omitting L so the constructor default 0 applies. The code
performs no validation of its arguments. -/
def init_matrix (symbols unsymbols : List String) (n_positions : ℕ) : Hansel :=
  hansel_new (fun _ _ _ _ => 0) symbols.length (n_positions + 2) symbols unsymbols 0

/-- Hansel.__symbol_num through the symbols_d dictionary: the dictionary is
built by enumeration, so a later duplicate name overwrites an earlier one.
Returns none where Python raises KeyError. -/
def symbol_num (h : Hansel) (symbol : String) : Option ℕ :=
  (List.range h.symbols.length).foldl
    (fun acc i => if h.symbols.getD i "" = symbol then some i else acc) none

/-- Indices of valid_symbols_i in iteration order: ascending indices whose
symbol does not appear in the unsymbols list. -/
def valid_symbols_i (h : Hansel) : List ℕ :=
  (List.range h.symbols.length).filter
    (fun i => !(h.unsymbols.contains (h.symbols.getD i "")))

/-- Hansel.__orient_positions: canonicalize a position pair to (min, max)
order. -/
def orient_positions (i j : ℕ) : ℕ × ℕ :=
  if i < j then (i, j) else (j, i)

/-- Single-cell store, modelling one numpy item assignment. -/
def set_cell (h : Hansel) (a b i j : ℕ) (v : ℚ) : Hansel :=
  { h with data := fun a2 b2 i2 j2 =>
      if a2 = a ∧ b2 = b ∧ i2 = i ∧ j2 = j then v else h.data a2 b2 i2 j2 }

/-- Hansel.__get_observation: canonicalize the positions, read the cell, and
clamp a stored value below 1.0 to 0. -/
def get_observation_idx (h : Hansel) (symbol_from symbol_to pos_from pos_to : ℕ) : ℚ :=
  let p := orient_positions pos_from pos_to
  let v := h.data symbol_from symbol_to p.1 p.2
  if 1 ≤ v then v else 0

/-- Hansel.get_observation: resolve both symbol names, then read through
__get_observation. -/
def get_observation (h : Hansel) (symbol_from symbol_to : String) (pos_from pos_to : ℕ) : Option ℚ :=
  (symbol_num h symbol_from).bind (fun a =>
    (symbol_num h symbol_to).map (fun b => get_observation_idx h a b pos_from pos_to))

/-- Cell update performed by Hansel.add_observation after symbol lookup:
canonicalize the positions and add value to the addressed cell. -/
def add_observation_idx (h : Hansel) (a b pos_from pos_to : ℕ) (value : ℚ) : Hansel :=
  let p := orient_positions pos_from pos_to
  set_cell h a b p.1 p.2 (h.data a b p.1 p.2 + value)

/-- Hansel.add_observation: resolve both symbol names, then accumulate. -/
def add_observation (h : Hansel) (symbol_from symbol_to : String) (pos_from pos_to : ℕ) (value : ℚ) : Option Hansel :=
  (symbol_num h symbol_from).bind (fun a =>
    (symbol_num h symbol_to).map (fun b => add_observation_idx h a b pos_from pos_to value))

/-- Hansel.reweight_observation. The symbol arguments are HanselSymbol
indices used directly as array coordinates. The raw cell value is read, not
the clamped __get_observation value. Both decay branches return before the
final two statements, so the is_weighted assignment is only reached on the
branch where the cell already held 0. -/
def reweight_observation (h : Hansel) (s_a s_b pos_from pos_to : ℕ) (r : ℚ) : Hansel × ℚ :=
  let p := orient_positions pos_from pos_to
  let old_v := h.data s_a s_b p.1 p.2
  let new_v := old_v - r * old_v
  if old_v ≠ 0 then
    if new_v < 1 then (set_cell h s_a s_b p.1 p.2 0, old_v)
    else (set_cell h s_a s_b p.1 p.2 new_v, old_v - new_v)
  else ({ h with is_weighted := true }, 0)

/-- Sum of every cell of the allocated shape, modelling ndarray.sum(). -/
def matrix_sum (h : Hansel) : ℚ :=
  ((List.range h.n_syms).map (fun a =>
    ((List.range h.n_syms).map (fun b =>
      ((List.range h.n_pos).map (fun i =>
        ((List.range h.n_pos).map (fun j => h.data a b i j)).sum)).sum)).sum)).sum

/-- Hansel.reweight_matrix. In the Python body, the statement
self = self - (self*ratio) rebinds the method-local name self to a freshly
allocated decayed array: the matrix the caller holds is never written, and the
following is_weighted assignment lands on that discarded local array. The
returned amount is total minus the sum of the decayed local copy. -/
def reweight_matrix (h : Hansel) (r : ℚ) : Hansel × ℚ :=
  let total := matrix_sum h
  let decayed : Hansel :=
    { h with
        data := fun a b i j => h.data a b i j - h.data a b i j * r
        is_weighted := true }
  (h, total - matrix_sum decayed)

/-- Inner loop of Hansel.get_counts_at: observations from symbol index
symbol_a over the edge (at_pos, at_pos+1), summed over every second symbol. -/
def row_obs (h : Hansel) (symbol_a at_pos : ℕ) : ℚ :=
  (List.range h.symbols.length).foldl
    (fun obs symbol_b => obs + get_observation_idx h symbol_a symbol_b at_pos (at_pos + 1)) 0

/-- One iteration of the outer loop of Hansel.get_counts_at: record the
symbol and extend the running total only when its count is positive. -/
def counts_step (h : Hansel) (at_pos : ℕ) (marg : List (ℕ × ℚ) × ℚ) (symbol_a : ℕ) : List (ℕ × ℚ) × ℚ :=
  let obs := row_obs h symbol_a at_pos
  if 0 < obs then (marg.1 ++ [(symbol_a, obs)], marg.2 + obs) else marg

/-- Hansel.get_counts_at: association list of per-symbol counts plus the
reserved total, kept as the second component of the returned pair. At the
source sentinel position 0 every symbol is a candidate, elsewhere only the
valid symbols are. -/
def get_counts_at (h : Hansel) (at_pos : ℕ) : List (ℕ × ℚ) × ℚ :=
  let permitted := if at_pos = 0 then List.range h.symbols.length else valid_symbols_i h
  permitted.foldl (counts_step h at_pos) ([], 0)

/-- Hansel.get_marginal_of_at: the dictionary access marginal[of_symbol]
raises KeyError when the symbol has no recorded mass at the position, which is
modelled by none. -/
def get_marginal_of_at (h : Hansel) (of_symbol at_pos : ℕ) : Option ℚ :=
  let marginal := get_counts_at h at_pos
  (List.lookup of_symbol marginal.1).map (fun c => c / marginal.2)

/-- Hansel.get_spanning_support: total clamped observations of symbol_to over
(pos_from, pos_to) from every valid first symbol. -/
def get_spanning_support (h : Hansel) (symbol_to pos_from pos_to : ℕ) : ℚ :=
  (valid_symbols_i h).foldl
    (fun total symbol_from => total + get_observation_idx h symbol_from symbol_to pos_from pos_to) 0

/-- Hansel.__estimate_conditional: (1 + obs) / (av + total), with none marking
the ZeroDivisionError that Python raises when the denominator is zero. -/
def estimate_conditional (av : ℕ) (obs total : ℚ) : Option ℚ :=
  if (av : ℚ) + total = 0 then none else some ((1 + obs) / ((av : ℚ) + total))

/-- Hansel.get_conditional_of_at. The body eagerly evaluates
get_marginal_of_at(symbol_from, pos_from) into an otherwise unused local
before the smoothing formula runs, so a KeyError there aborts the whole call;
the bind reproduces that order of failure. -/
def get_conditional_of_at (h : Hansel) (symbol_from symbol_to pos_from pos_to : ℕ) : Option ℚ :=
  let marg_from := get_counts_at h pos_from
  let obs := get_observation_idx h symbol_from symbol_to pos_from pos_to
  let total := get_spanning_support h symbol_to pos_from pos_to
  (get_marginal_of_at h symbol_from pos_from).bind (fun _ =>
    let valid_symbols_seen :=
      ((valid_symbols_i h).filter (fun s => (List.lookup s marg_from.1).isSome)).length
    estimate_conditional valid_symbols_seen obs total)

/-- One iteration of the window loop of Hansel.get_edge_weights_at: add the
log10 of one conditional to the accumulating score. The base-10 logarithm is
abstracted as the function lg, since the claims about this code concern the
structure of the score, not the numeric value of a logarithm. -/
def edge_step (h : Hansel) (lg : ℚ → ℚ) (symbol_pos : ℕ) (current_path : List ℕ) (symbol : ℕ)
    (acc : Option ℚ) (l : ℕ) : Option ℚ :=
  let curr_i := current_path.length - 1 - l
  acc.bind (fun a =>
    (get_conditional_of_at h (current_path.getD curr_i 0) symbol curr_i symbol_pos).map
      (fun c => a + lg c))

/-- Score of one candidate symbol in Hansel.get_edge_weights_at: start from
0.0, add one conditional log per window slot when symbol_pos > 1, then always
add the marginal log. -/
def get_edge_weight_for (h : Hansel) (lg : ℚ → ℚ) (symbol_pos : ℕ) (current_path : List ℕ) (symbol : ℕ) : Option ℚ :=
  let l_limit := if current_path.length - 1 < h.L then current_path.length - 1 else h.L
  let base : Option ℚ :=
    if 1 < symbol_pos then
      (List.range l_limit).foldl (edge_step h lg symbol_pos current_path symbol) (some 0)
    else some 0
  base.bind (fun a => (get_marginal_of_at h symbol symbol_pos).map (fun m => a + lg m))

/-- Hansel.get_edge_weights_at: score every symbol of get_counts_at whose
name is not an unsymbol. The reserved total entry lives outside the
association list in this model, so the skip of the total key in the source is
structural here. -/
def get_edge_weights_at (h : Hansel) (lg : ℚ → ℚ) (symbol_pos : ℕ) (current_path : List ℕ) : List (ℕ × Option ℚ) :=
  ((get_counts_at h symbol_pos).1.filter
      (fun e => !(h.unsymbols.contains (h.symbols.getD e.1 "")))).map
    (fun e => (e.1, get_edge_weight_for h lg symbol_pos current_path e.1))

/-- Concrete matrix for evaluations: single symbol A, one real position, one
observation of weight 2 on the edge (0, 1). -/
def ex_two : Hansel :=
  add_observation_idx (init_matrix ["A"] [] 1) 0 0 0 1 2

/-- Concrete matrix for evaluations: symbols A and C, an observation of
weight 2 on the edge (1, 2). -/
def ex_cond : Hansel :=
  add_observation_idx (init_matrix ["A", "C"] [] 3) 0 0 1 2 2

/-- Concrete matrix for evaluations: symbols A and C, window size 1, weight 2
observations on the edges (1, 2) and (2, 3). -/
def ex_window : Hansel :=
  add_observation_idx
    (add_observation_idx (hansel_new (fun _ _ _ _ => 0) 2 5 ["A", "C"] [] 1) 0 0 1 2 2)
    0 0 2 3 2

lemma orient_eq_of_le (i j : ℕ) (hij : i ≤ j) : orient_positions i j = (i, j) := by
  unfold orient_positions
  by_cases hlt : i < j
  · rw [if_pos hlt]
  · rw [if_neg hlt]
    have : i = j := by omega
    subst this
    rfl

lemma orient_comm (i j : ℕ) : orient_positions i j = orient_positions j i := by
  unfold orient_positions
  by_cases hij : i < j
  · rw [if_pos hij, if_neg (by omega)]
  · by_cases hji : j < i
    · rw [if_neg hij, if_pos hji]
    · rw [if_neg hij, if_neg hji]
      have : i = j := by omega
      subst this
      rfl

lemma get_observation_idx_nonneg (h : Hansel) (a b i j : ℕ) :
    0 ≤ get_observation_idx h a b i j := by
  simp only [get_observation_idx]
  split
  · linarith
  · exact le_refl 0

lemma get_observation_idx_pos_comm (h : Hansel) (a b i j : ℕ) :
    get_observation_idx h a b i j = get_observation_idx h a b j i := by
  unfold get_observation_idx
  rw [orient_comm]

lemma foldl_add_eq (f : ℕ → ℚ) (l : List ℕ) (a : ℚ) :
    l.foldl (fun acc b => acc + f b) a = a + (l.map f).sum := by
  induction l generalizing a with
  | nil => simp
  | cons x xs ih => simp [List.foldl_cons, ih, add_assoc]

lemma row_obs_eq_sum (h : Hansel) (a p : ℕ) :
    row_obs h a p =
      ((List.range h.symbols.length).map (fun b => get_observation_idx h a b p (p + 1))).sum := by
  have hgen := foldl_add_eq (fun b => get_observation_idx h a b p (p + 1))
    (List.range h.symbols.length) 0
  simpa [row_obs] using hgen

lemma spanning_eq_sum (h : Hansel) (st pf pt : ℕ) :
    get_spanning_support h st pf pt =
      ((valid_symbols_i h).map (fun s => get_observation_idx h s st pf pt)).sum := by
  have hgen := foldl_add_eq (fun s => get_observation_idx h s st pf pt) (valid_symbols_i h) 0
  simpa [get_spanning_support] using hgen

lemma counts_step_eq (h : Hansel) (p : ℕ) (m : List (ℕ × ℚ) × ℚ) (x : ℕ) :
    counts_step h p m x =
      if 0 < row_obs h x p then (m.1 ++ [(x, row_obs h x p)], m.2 + row_obs h x p) else m := rfl

lemma counts_foldl (h : Hansel) (p : ℕ) (l : List ℕ) :
    ∀ (es : List (ℕ × ℚ)) (t : ℚ),
      l.foldl (counts_step h p) (es, t) =
        (es ++ l.filterMap (fun a => if 0 < row_obs h a p then some (a, row_obs h a p) else none),
         t + ((l.filterMap
            (fun a => if 0 < row_obs h a p then some (a, row_obs h a p) else none)).map
              Prod.snd).sum) := by
  induction l with
  | nil => intro es t; simp
  | cons x xs ih =>
      intro es t
      rw [List.foldl_cons, counts_step_eq]
      by_cases hx : 0 < row_obs h x p
      · rw [if_pos hx]
        simp only [ih, List.filterMap_cons, if_pos hx, List.map_cons, List.sum_cons]
        simp [List.append_assoc, add_assoc]
      · rw [if_neg hx]
        simp only [ih, List.filterMap_cons, if_neg hx]

lemma if_lt_eq_min (a b : ℕ) : (if a < b then a else b) = min a b := by
  by_cases hab : a < b
  · rw [if_pos hab, Nat.min_eq_left (Nat.le_of_lt hab)]
  · rw [if_neg hab, Nat.min_eq_right (Nat.le_of_not_lt hab)]

lemma edge_foldl_some (h : Hansel) (lg : ℚ → ℚ) (p : ℕ) (path : List ℕ) (sym : ℕ) :
    ∀ k : ℕ,
      (∀ l, l < k →
        (get_conditional_of_at h (path.getD (path.length - 1 - l) 0) sym
          (path.length - 1 - l) p).isSome) →
      (List.range k).foldl (edge_step h lg p path sym) (some 0) =
        some (((List.range k).map
          (fun l => lg ((get_conditional_of_at h (path.getD (path.length - 1 - l) 0) sym
            (path.length - 1 - l) p).getD 0))).sum) := by
  intro k
  induction k with
  | zero => intro _; simp
  | succ n ih =>
      intro hall
      obtain ⟨c, hc⟩ := Option.isSome_iff_exists.mp (hall n (Nat.lt_succ_self n))
      rw [List.range_succ, List.foldl_append,
        ih (fun l hl => hall l (Nat.lt_succ_of_lt hl))]
      simp only [List.map_append, List.sum_append, List.map_cons, List.map_nil, List.sum_cons,
        List.sum_nil, List.foldl_cons, List.foldl_nil, edge_step]
      rw [hc]
      simp

lemma sum_map_decay (r2 : ℚ) (f : ℕ → ℚ) (l : List ℕ) :
    (l.map (fun x => f x - f x * r2)).sum = (l.map f).sum - (l.map f).sum * r2 := by
  induction l with
  | nil => simp
  | cons x xs ih =>
      simp only [List.map_cons, List.sum_cons, ih]
      ring

lemma matrix_sum_decayed (h : Hansel) (r2 : ℚ) :
    matrix_sum
        { h with
            data := fun a b i j => h.data a b i j - h.data a b i j * r2
            is_weighted := true } =
      matrix_sum h - matrix_sum h * r2 := by
  simp only [matrix_sum, sum_map_decay]

/-- Claim C1. In general, reweight_matrix leaves the caller matrix exactly as
it was and returns total mass times ratio: the Python statement
self = self - (self*ratio) only rebinds a method-local name, so no cell of the
caller matrix is ever decayed. Evaluated at the failing input: the matrix over
the single symbol A holds one observation of weight 2, so the total stored
mass is 2; calling reweight_matrix with ratio one half returns 1, which is
mass times ratio as the claim says, but the total stored mass afterwards is
still 2 rather than 1, the stored cell is untouched, and is_weighted is still
false. -/
theorem c1_reweight_matrix_no_decay :
    (∀ (h : Hansel) (r2 : ℚ),
        (reweight_matrix h r2).1 = h ∧ (reweight_matrix h r2).2 = matrix_sum h * r2) ∧
    ((add_observation (init_matrix ["A"] [] 1) "A" "A" 0 1 2).map
        (fun m => (matrix_sum m, (reweight_matrix m (1/2)).2,
                   matrix_sum (reweight_matrix m (1/2)).1,
                   (reweight_matrix m (1/2)).1.data 0 0 0 1,
                   (reweight_matrix m (1/2)).1.is_weighted)) =
      some (2, 1, 2, 2, false)) ∧ (2 : ℚ) * (1 - 1/2) ≠ 2 := by
  refine ⟨fun h r2 => ⟨rfl, ?_⟩, ?_, by norm_num⟩
  · simp only [reweight_matrix]
    rw [matrix_sum_decayed]
    ring
  · norm_num +decide [add_observation, symbol_num, init_matrix, hansel_new, add_observation_idx,
      set_cell, orient_positions, matrix_sum, reweight_matrix, List.range_succ]

/-- Claim C4, evaluated at a failing input. The matrix holds a cell of weight
2; reweight_observation with ratio one half decays that cell to 1 and returns
the removed weight 1, yet is_weighted on the returned matrix is still false,
because both decay branches of the source return before the line that sets
the flag. -/
theorem c4_reweight_observation_flag_unreachable :
    (add_observation (init_matrix ["A"] [] 1) "A" "A" 0 1 2).map
        (fun m => ((reweight_observation m 0 0 0 1 (1/2)).1.is_weighted,
                   (reweight_observation m 0 0 0 1 (1/2)).1.data 0 0 0 1,
                   (reweight_observation m 0 0 0 1 (1/2)).2,
                   m.is_weighted)) =
      some (false, 1, 1, false) := by
  norm_num +decide [add_observation, symbol_num, init_matrix, hansel_new, add_observation_idx,
    set_cell, orient_positions, reweight_observation, List.range_succ]

/-- Claim C5, counterexample: the unsymbols list [Z] is not a subset of the
symbols list [A], yet init_matrix raises nothing and returns an ordinary
zero-filled matrix of the documented shape, with the non-subset unsymbols
stored as given. The operation has no failure path at all. -/
theorem c5_counterexample :
    ¬ ("Z" ∈ (["A"] : List String)) ∧
    (init_matrix ["A"] ["Z"] 1).unsymbols = ["Z"] ∧
    (init_matrix ["A"] ["Z"] 1).data 0 0 0 0 = 0 ∧
    (init_matrix ["A"] ["Z"] 1).n_syms = 1 ∧
    (init_matrix ["A"] ["Z"] 1).n_pos = 3 := by
  refine ⟨by decide, rfl, rfl, rfl, rfl⟩

/-- Claim C5 as amended: init_matrix performs no validation of its arguments;
for every symbols list, unsymbols list and nonnegative position count,
whether or not unsymbols is a subset of symbols, it returns the zero-filled
matrix of shape (n_symbols, n_symbols, n_positions+2, n_positions+2) with a
fresh unweighted state. -/
theorem c5_amended (s u : List String) (np a b i j : ℕ) :
    (init_matrix s u np).data a b i j = 0 ∧
    (init_matrix s u np).n_syms = s.length ∧
    (init_matrix s u np).n_pos = np + 2 ∧
    (init_matrix s u np).symbols = s ∧
    (init_matrix s u np).unsymbols = u ∧
    (init_matrix s u np).is_weighted = false :=
  ⟨rfl, rfl, rfl, rfl, rfl, rfl⟩

/-- Claim C7: position argument order never changes what get_observation
reads, for every matrix state and every pair of positions; and on the
concrete reachable state holding one observation of A at position 1 with C at
position 2, reading with the symbol order swapped gives 0 instead of 1, so
symbol order is not canonicalized. -/
theorem c7_position_canonicalization :
    (∀ (h : Hansel) (sf st : String) (i j : ℕ),
        get_observation h sf st i j = get_observation h sf st j i) ∧
    ((add_observation (init_matrix ["A", "C"] [] 3) "A" "C" 1 2 1).map
        (fun m => (get_observation m "A" "C" 1 2, get_observation m "C" "A" 1 2)) =
      some (some 1, some 0)) ∧
    some (1 : ℚ) ≠ some (0 : ℚ) := by
  refine ⟨?_, ?_, by norm_num⟩
  · intro h sf st i j
    simp only [get_observation, get_observation_idx_pos_comm h]
  · norm_num +decide [add_observation, symbol_num, init_matrix, hansel_new, add_observation_idx,
      set_cell, orient_positions, get_observation, get_observation_idx, List.range_succ]

/-- Claim C2, counterexample: with symbols A and N where N is an unsymbol,
after one observation of N at position 0 with A at position 1, the
conditional of symbol N given A over positions 0 and 4 reaches the smoothing
formula with obs = 0, spanning total = 0 and k = 0 valid symbols seen at
position 0, so the denominator is zero and the call raises
ZeroDivisionError instead of returning a probability; the eager marginal
lookup it performs first succeeds, so the division really is reached. -/
theorem c2_counterexample :
    (add_observation (init_matrix ["A", "N"] ["N"] 3) "N" "A" 0 1 1).map
        (fun m => (get_conditional_of_at m 1 0 0 4, (get_marginal_of_at m 1 0).isSome)) =
      some (none, true) := by
  norm_num +decide [add_observation, symbol_num, init_matrix, hansel_new, add_observation_idx,
    set_cell, orient_positions, get_conditional_of_at, get_marginal_of_at, get_counts_at,
    counts_step, row_obs, get_observation_idx, valid_symbols_i, get_spanning_support,
    estimate_conditional, List.range_succ, List.lookup]

/-- Claim C2 as amended: whenever get_conditional_of_at returns a value at all
and symbol_from is a valid symbol, that value is a finite strictly positive
probability in the interval (0, 1]. The call is not total: the k term counts
only valid symbols with nonzero count at pos_from, so it does not bound the
denominator away from zero, and the eager marginal lookup can also raise. -/
theorem c2_amended (h : Hansel) (sf st pf pt : ℕ) (c : ℚ)
    (hc : get_conditional_of_at h sf st pf pt = some c)
    (hv : sf ∈ valid_symbols_i h) :
    0 < c ∧ c ≤ 1 := by
  simp only [get_conditional_of_at, estimate_conditional] at hc
  cases hm : get_marginal_of_at h sf pf with
  | none => rw [hm] at hc; simp at hc
  | some w =>
      rw [hm] at hc
      simp only [Option.some_bind] at hc
      have hlk : (List.lookup sf (get_counts_at h pf).1).isSome = true := by
        simp only [get_marginal_of_at] at hm
        cases hl : List.lookup sf (get_counts_at h pf).1 with
        | none => rw [hl] at hm; simp at hm
        | some y => simp
      have hmemf : sf ∈ (valid_symbols_i h).filter
          (fun s => (List.lookup s (get_counts_at h pf).1).isSome) :=
        List.mem_filter.mpr ⟨hv, hlk⟩
      have hav1 : 0 < ((valid_symbols_i h).filter
          (fun s => (List.lookup s (get_counts_at h pf).1).isSome)).length :=
        List.length_pos.mpr (List.ne_nil_of_mem hmemf)
      have havq : (1 : ℚ) ≤ (((valid_symbols_i h).filter
          (fun s => (List.lookup s (get_counts_at h pf).1).isSome)).length : ℚ) := by
        exact_mod_cast hav1
      have hterm : ∀ x ∈ (valid_symbols_i h).map (fun s => get_observation_idx h s st pf pt),
          0 ≤ x := by
        intro x hx
        obtain ⟨s, _, rfl⟩ := List.mem_map.mp hx
        exact get_observation_idx_nonneg h s st pf pt
      have hobs_le : get_observation_idx h sf st pf pt ≤ get_spanning_support h st pf pt := by
        rw [spanning_eq_sum]
        exact List.single_le_sum hterm _ (List.mem_map_of_mem _ hv)
      have htot0 : 0 ≤ get_spanning_support h st pf pt := by
        rw [spanning_eq_sum]
        exact List.sum_nonneg hterm
      have hobs0 : 0 ≤ get_observation_idx h sf st pf pt :=
        get_observation_idx_nonneg h sf st pf pt
      by_cases hz : ((((valid_symbols_i h).filter
          (fun s => (List.lookup s (get_counts_at h pf).1).isSome)).length : ℚ) +
            get_spanning_support h st pf pt) = 0
      · rw [if_pos hz] at hc
        exact absurd hc (by simp)
      · rw [if_neg hz] at hc
        have hceq := (Option.some.inj hc).symm
        have hden : 0 < (((valid_symbols_i h).filter
            (fun s => (List.lookup s (get_counts_at h pf).1).isSome)).length : ℚ) +
              get_spanning_support h st pf pt := by linarith
        constructor
        · rw [hceq]
          exact div_pos (by linarith) hden
        · rw [hceq, div_le_one hden]
          linarith

/-- Claim C2, witness instance: on the matrix holding a weight 2 observation
of A at position 1 with A at position 2, the conditional of A given A over
positions 1 and 2 evaluates to (1+2)/(1+2) = 1, and the amended claim places
that value in (0, 1]. -/
theorem c2_witness :
    get_conditional_of_at ex_cond 0 0 1 2 = some 1 ∧ 0 ∈ valid_symbols_i ex_cond ∧
      (0 < (1 : ℚ) ∧ (1 : ℚ) ≤ 1) := by
  have h1 : get_conditional_of_at ex_cond 0 0 1 2 = some 1 := by
    norm_num +decide [ex_cond, init_matrix, hansel_new, add_observation_idx, set_cell,
      orient_positions, get_conditional_of_at, get_marginal_of_at, get_counts_at, counts_step,
      row_obs, get_observation_idx, valid_symbols_i, get_spanning_support, estimate_conditional,
      List.range_succ, List.lookup]
  have h2 : 0 ∈ valid_symbols_i ex_cond := by
    norm_num +decide [valid_symbols_i, ex_cond, add_observation_idx, set_cell, init_matrix,
      hansel_new, orient_positions, List.range_succ]
  exact ⟨h1, h2, c2_amended ex_cond 0 0 1 2 1 h1 h2⟩

/-- Claim C3, counterexample: after adding an observation of weight one half,
the cell holds the raw value 1/2 while get_observation reports 0. Calling
reweight_observation with ratio 0 on that cell then returns 1/2 and zeroes
the cell, where the claim, reading old through get_observation, predicts a
return of 0.0 and no change: the code takes old from the raw cell value, not
from get_observation. -/
theorem c3_counterexample :
    (add_observation (init_matrix ["A"] [] 1) "A" "A" 0 1 (1/2)).map
        (fun m => (get_observation m "A" "A" 0 1,
                   (reweight_observation m 0 0 0 1 0).2,
                   (reweight_observation m 0 0 0 1 0).1.data 0 0 0 1)) =
      some (some 0, 1/2, 0) ∧ (1/2 : ℚ) ≠ 0 := by
  constructor
  · norm_num +decide [add_observation, symbol_num, init_matrix, hansel_new, add_observation_idx,
      set_cell, orient_positions, get_observation, get_observation_idx, reweight_observation,
      List.range_succ]
  · norm_num

/-- Claim C3 as amended: for every cell and every ratio, with old taken as
the raw stored cell value at the canonicalized positions, reweight_observation
behaves as the claim says: a zero cell is untouched and 0.0 is returned; a
nonzero cell whose decayed value old*(1-ratio) falls below 1 is set to 0 with
old returned; and otherwise the cell is set to old*(1-ratio) with the removed
difference returned. The final conjunct records that this raw value coincides
with what get_observation reports exactly when the cell holds no sub-unit
residue, that is when it is 0 or at least 1. -/
theorem c3_amended (h : Hansel) (a b i j : ℕ) (r2 : ℚ) :
    (h.data a b (orient_positions i j).1 (orient_positions i j).2 = 0 →
      (reweight_observation h a b i j r2).1.data = h.data ∧
      (reweight_observation h a b i j r2).2 = 0) ∧
    (h.data a b (orient_positions i j).1 (orient_positions i j).2 ≠ 0 →
      h.data a b (orient_positions i j).1 (orient_positions i j).2 * (1 - r2) < 1 →
      (reweight_observation h a b i j r2).1.data a b (orient_positions i j).1
          (orient_positions i j).2 = 0 ∧
      (reweight_observation h a b i j r2).2 =
        h.data a b (orient_positions i j).1 (orient_positions i j).2) ∧
    (h.data a b (orient_positions i j).1 (orient_positions i j).2 ≠ 0 →
      ¬ h.data a b (orient_positions i j).1 (orient_positions i j).2 * (1 - r2) < 1 →
      (reweight_observation h a b i j r2).1.data a b (orient_positions i j).1
          (orient_positions i j).2 =
        h.data a b (orient_positions i j).1 (orient_positions i j).2 * (1 - r2) ∧
      (reweight_observation h a b i j r2).2 =
        h.data a b (orient_positions i j).1 (orient_positions i j).2 -
          h.data a b (orient_positions i j).1 (orient_positions i j).2 * (1 - r2)) ∧
    (h.data a b (orient_positions i j).1 (orient_positions i j).2 = 0 ∨
        1 ≤ h.data a b (orient_positions i j).1 (orient_positions i j).2 →
      get_observation_idx h a b i j =
        h.data a b (orient_positions i j).1 (orient_positions i j).2) := by
  simp only [reweight_observation]
  have hsub : h.data a b (orient_positions i j).1 (orient_positions i j).2 -
      r2 * h.data a b (orient_positions i j).1 (orient_positions i j).2 =
      h.data a b (orient_positions i j).1 (orient_positions i j).2 * (1 - r2) := by ring
  rw [hsub]
  refine ⟨?_, ?_, ?_, ?_⟩
  · intro h0
    rw [if_neg (not_ne_iff.mpr h0)]
    exact ⟨rfl, rfl⟩
  · intro h0 hlt
    rw [if_pos h0, if_pos hlt]
    refine ⟨?_, rfl⟩
    simp [set_cell]
  · intro h0 hlt
    rw [if_pos h0, if_neg hlt]
    refine ⟨?_, rfl⟩
    simp [set_cell]
  · intro h0
    simp only [get_observation_idx]
    rcases h0 with h0 | h0
    · rw [h0]
      norm_num
    · rw [if_pos h0]

/-- Claim C3, witness instance: the matrix cell holding the raw value 2 is
nonzero, and with ratio one half the decayed value 1 is not below 1, so the
cell is set to 1 and the removed difference 1 is returned. -/
theorem c3_witness :
    (reweight_observation ex_two 0 0 0 1 (1/2)).1.data 0 0 (orient_positions 0 1).1
        (orient_positions 0 1).2 =
      ex_two.data 0 0 (orient_positions 0 1).1 (orient_positions 0 1).2 * (1 - (1/2 : ℚ)) ∧
    (reweight_observation ex_two 0 0 0 1 (1/2)).2 =
      ex_two.data 0 0 (orient_positions 0 1).1 (orient_positions 0 1).2 -
        ex_two.data 0 0 (orient_positions 0 1).1 (orient_positions 0 1).2 * (1 - (1/2 : ℚ)) :=
  (c3_amended ex_two 0 0 0 1 (1/2)).2.2.1
    (by norm_num +decide [ex_two, add_observation_idx, set_cell, init_matrix, hansel_new,
      orient_positions])
    (by norm_num +decide [ex_two, add_observation_idx, set_cell, init_matrix, hansel_new,
      orient_positions])

/-- Claim C6, counterexample: on a fresh matrix the reported value at the
cell is 0; adding one half and reading back still reports 0, not the previous
reported value plus the added amount, because the stored value one half is
clamped by the read. -/
theorem c6_counterexample :
    get_observation (init_matrix ["A"] [] 1) "A" "A" 0 1 = some 0 ∧
    (add_observation (init_matrix ["A"] [] 1) "A" "A" 0 1 (1/2)).bind
        (fun h2 => get_observation h2 "A" "A" 0 1) = some 0 ∧
    (0 : ℚ) ≠ 0 + 1/2 := by
  refine ⟨?_, ?_, by norm_num⟩
  · norm_num +decide [get_observation, symbol_num, init_matrix, hansel_new, get_observation_idx,
      orient_positions, List.range_succ]
  · norm_num +decide [add_observation, symbol_num, init_matrix, hansel_new, add_observation_idx,
      set_cell, orient_positions, get_observation, get_observation_idx, List.range_succ]

/-- Claim C6 as amended: when both symbol names resolve, the positions are
given in canonical order, the cell holds no sub-unit residue (its raw value
equals the value get_observation reports), and the updated value stays at or
above the clamping threshold 1, adding an observation and reading it back
returns the previous reported value plus the added amount. -/
theorem c6_amended (h : Hansel) (sf st : String) (a b i j : ℕ) (v g : ℚ)
    (ha : symbol_num h sf = some a) (hb2 : symbol_num h st = some b)
    (hij : i ≤ j)
    (hg : get_observation h sf st i j = some g)
    (hraw : h.data a b i j = g)
    (hclamp : 1 ≤ g + v) :
    (add_observation h sf st i j v).bind (fun h2 => get_observation h2 sf st i j) =
      some (g + v) := by
  have ha2 : symbol_num (add_observation_idx h a b i j v) sf = some a := ha
  have hb3 : symbol_num (add_observation_idx h a b i j v) st = some b := hb2
  have hor : orient_positions i j = (i, j) := orient_eq_of_le i j hij
  simp only [add_observation, ha, hb2, Option.some_bind, Option.map_some']
  simp only [get_observation, ha2, hb3, Option.some_bind, Option.map_some']
  have hdata : (add_observation_idx h a b i j v).data a b i j = g + v := by
    simp only [add_observation_idx, set_cell, hor]
    simp [hraw]
  simp only [get_observation_idx, hor]
  simp only [hdata]
  rw [if_pos hclamp]

/-- Claim C6, witness instance: on a fresh single-symbol matrix the reported
value is 0, the raw value is 0 as well, and adding 1 then reading back
reports 0 + 1. -/
theorem c6_witness :
    (add_observation (init_matrix ["A"] [] 1) "A" "A" 0 1 1).bind
        (fun h2 => get_observation h2 "A" "A" 0 1) = some (0 + 1) :=
  c6_amended (init_matrix ["A"] [] 1) "A" "A" 0 0 0 1 1 0
    (by norm_num +decide [symbol_num, init_matrix, hansel_new, List.range_succ])
    (by norm_num +decide [symbol_num, init_matrix, hansel_new, List.range_succ])
    (by norm_num)
    (by norm_num +decide [get_observation, symbol_num, init_matrix, hansel_new,
      get_observation_idx, orient_positions, List.range_succ])
    rfl
    (by norm_num)

/-- Claim C8: for every matrix state and position, the entries of
get_counts_at are exactly the candidate symbols (all symbols at position 0,
only valid symbols elsewhere) paired with their observation sums over the
edge (position, position+1) across every second symbol, kept only when that
sum is positive; and the reserved total equals the sum of all the other
entries. -/
theorem c8_counts_at_spec (h : Hansel) (p : ℕ) :
    (get_counts_at h p).1 =
      (if p = 0 then List.range h.symbols.length else valid_symbols_i h).filterMap
        (fun a =>
          if 0 < ((List.range h.symbols.length).map
              (fun b => get_observation_idx h a b p (p + 1))).sum then
            some (a, ((List.range h.symbols.length).map
              (fun b => get_observation_idx h a b p (p + 1))).sum)
          else none) ∧
    (get_counts_at h p).2 = ((get_counts_at h p).1.map Prod.snd).sum := by
  have hval : get_counts_at h p =
      ((if p = 0 then List.range h.symbols.length else valid_symbols_i h).filterMap
        (fun a => if 0 < row_obs h a p then some (a, row_obs h a p) else none),
       (((if p = 0 then List.range h.symbols.length else valid_symbols_i h).filterMap
        (fun a => if 0 < row_obs h a p then some (a, row_obs h a p) else none)).map
          Prod.snd).sum) := by
    simp only [get_counts_at]
    rw [counts_foldl h p _ [] 0]
    simp
  constructor
  · rw [hval]
    simp only [row_obs_eq_sum]
  · rw [hval]

/-- Claim C9: every entry of get_edge_weights_at carries the score of its
symbol, and that score decomposes as the claim says: above position 1 and
with every windowed conditional defined, it is the sum of exactly
min(path length - 1, L) conditional log terms over the most recent path
entries plus the marginal log term; at positions up to 1 it is the marginal
log alone; and with window size 1 above position 1 it incorporates exactly
the one conditional term of the immediately preceding path entry. -/
theorem c9_edge_weight_window (h : Hansel) (lg : ℚ → ℚ) (p : ℕ) (path : List ℕ)
    (e : ℕ × Option ℚ) (hmem : e ∈ get_edge_weights_at h lg p path) (m : ℚ)
    (hm : get_marginal_of_at h e.1 p = some m) :
    (1 < p →
      (∀ l, l < min (path.length - 1) h.L →
        (get_conditional_of_at h (path.getD (path.length - 1 - l) 0) e.1
          (path.length - 1 - l) p).isSome) →
      e.2 = some ((((List.range (min (path.length - 1) h.L)).map
        (fun l => lg ((get_conditional_of_at h (path.getD (path.length - 1 - l) 0) e.1
          (path.length - 1 - l) p).getD 0))).sum) + lg m)) ∧
    (p ≤ 1 → e.2 = some (lg m)) ∧
    (h.L = 1 → 1 < p → 2 ≤ path.length →
      e.2 = (get_conditional_of_at h (path.getD (path.length - 1) 0) e.1
        (path.length - 1) p).map (fun c => lg c + lg m)) := by
  simp only [get_edge_weights_at, List.mem_map] at hmem
  obtain ⟨x, hx, hxe⟩ := hmem
  have he2 : e.2 = get_edge_weight_for h lg p path e.1 := by rw [← hxe]
  rw [he2]
  simp only [get_edge_weight_for, if_lt_eq_min]
  rw [hm]
  refine ⟨?_, ?_, ?_⟩
  · intro hp hall
    rw [if_pos hp, edge_foldl_some h lg p path e.1 (min (path.length - 1) h.L) hall]
    simp
  · intro hp
    rw [if_neg (by omega : ¬ 1 < p)]
    simp
  · intro hL hp hlen
    rw [if_pos hp]
    have hmin : min (path.length - 1) h.L = 1 := by rw [hL]; omega
    rw [hmin, show List.range 1 = [0] from rfl]
    simp only [List.foldl_cons, List.foldl_nil, edge_step, Nat.sub_zero]
    cases hcond : get_conditional_of_at h (path.getD (path.length - 1) 0) e.1
        (path.length - 1) p with
    | none => simp [hcond]
    | some c => simp [hcond]

/-- Claim C9, witness instance: on the window size 1 matrix with weight 2
observations on the edges (1, 2) and (2, 3), scoring symbol A at position 2
along the path [A, A] with the identity in place of log10 gives the one
conditional term 1 plus the marginal term 1. -/
theorem c9_witness :
    ((0, some (2 : ℚ)) : ℕ × Option ℚ).2 =
      some ((((List.range (min (([0, 0] : List ℕ).length - 1) ex_window.L)).map
        (fun l => id ((get_conditional_of_at ex_window (([0, 0] : List ℕ).getD
          (([0, 0] : List ℕ).length - 1 - l) 0) ((0, some (2 : ℚ)) : ℕ × Option ℚ).1
          (([0, 0] : List ℕ).length - 1 - l) 2).getD 0))).sum) +
        id 1) :=
  (c9_edge_weight_window ex_window id 2 [0, 0] (0, some 2)
    (by norm_num +decide [ex_window, hansel_new, add_observation_idx, set_cell,
      orient_positions, get_edge_weights_at, get_edge_weight_for, edge_step,
      get_conditional_of_at, get_marginal_of_at, get_counts_at, counts_step, row_obs,
      get_observation_idx, valid_symbols_i, get_spanning_support, estimate_conditional,
      List.range_succ, List.lookup])
    1
    (by norm_num +decide [ex_window, hansel_new, add_observation_idx, set_cell,
      orient_positions, get_marginal_of_at, get_counts_at, counts_step, row_obs,
      get_observation_idx, valid_symbols_i, List.range_succ, List.lookup])).1
    (by omega)
    (fun l hl => by
      have hL : ex_window.L = 1 := rfl
      rw [hL] at hl
      simp only [List.length_cons, List.length_nil] at hl
      have hl0 : l = 0 := by omega
      subst hl0
      norm_num +decide [ex_window, hansel_new, add_observation_idx, set_cell,
        orient_positions, get_conditional_of_at, get_marginal_of_at, get_counts_at,
        counts_step, row_obs, get_observation_idx, valid_symbols_i, get_spanning_support,
        estimate_conditional, List.range_succ, List.lookup])

/-- Claim C10: every matrix built by init_matrix carries window size L = 0,
the constructor default, and on any matrix with L = 0 the conditioning loop of
the edge score runs zero times for every position, path and symbol, leaving
each candidate score equal to the log of its marginal alone. -/
theorem c10_window_default_zero :
    (∀ (s u : List String) (np : ℕ), (init_matrix s u np).L = 0) ∧
    (∀ (h : Hansel) (lg : ℚ → ℚ) (p : ℕ) (path : List ℕ) (sym : ℕ), h.L = 0 →
      get_edge_weight_for h lg p path sym =
        (get_marginal_of_at h sym p).map (fun m => lg m)) := by
  refine ⟨fun s u np => rfl, fun h lg p path sym hL => ?_⟩
  simp only [get_edge_weight_for, hL]
  rw [if_neg (Nat.not_lt_zero _)]
  have hbase : (if 1 < p then (List.range 0).foldl (edge_step h lg p path sym) (some 0)
      else some 0) = some 0 := by
    split <;> simp
  rw [hbase]
  cases hm : get_marginal_of_at h sym p <;> simp [hm]

/-- Claim C10, witness instance: the fresh single-symbol matrix has window
size 0, and scoring any symbol at position 2 along the path [A, A] gives the
mapped marginal alone. -/
theorem c10_witness :
    (init_matrix ["A"] [] 1).L = 0 ∧
    get_edge_weight_for (init_matrix ["A"] [] 1) id 2 [0, 0] 0 =
      (get_marginal_of_at (init_matrix ["A"] [] 1) 0 2).map (fun m => id m) :=
  ⟨c10_window_default_zero.1 ["A"] [] 1,
   c10_window_default_zero.2 (init_matrix ["A"] [] 1) id 2 [0, 0] 0 rfl⟩
